import Mathlib

/-!
Shallow embedding of the proof-of-work blockchain engine
(`src/unnamed/part_000`, `src/src/lib/crypto/index.ts`).

The digest primitive (WebCrypto `subtle.digest` plus hex formatting) is an
external collaborator; it is modelled as an abstract function parameter
`digest : String → String → String` (algorithm name, data ↦ digest string),
exactly the "injected capability" the design notes prescribe.  JavaScript
numbers holding the integer fields (`index`, `timestamp`, `nonce`) are
modelled as `Nat`; `String(n)` on such a value is plain decimal, i.e.
`toString`.  The self-recursive `mineBlock` has no termination bound in the
source, so it is embedded with explicit fuel and returns `Option Block`
(`none` = the search has not ended within the given fuel).
-/

namespace Agarthan

/-- The `IBlock` record of the source.  The source declares `hash` optional
(`hash?: string`); every block flowing through the engine has it assigned
(the genesis template sets `hash: ""`, `createBlock` assigns it before
freezing), so it is modelled as a plain `String`. -/
structure Block where
  index : Nat
  timestamp : Nat
  transaction : String
  previousHash : String
  hash : String
  nonce : Nat
  duration : Nat
  deriving Repr, DecidableEq

/-- The string the engine feeds to the digest provider, from
`String(index + timestamp + transaction + previousHash + nonce)` in both
`createBlock` and `validateChain`.  In JavaScript `index + timestamp` is
numeric addition (both operands are numbers); only from the third operand
on does `+` become string concatenation, converting each later numeric
operand to decimal. -/
def blockDataString (index timestamp : Nat) (transaction previousHash : String)
    (nonce : Nat) : String :=
  toString (index + timestamp) ++ transaction ++ previousHash ++ toString nonce

/-- `createBlock(algorithm, index, timestamp, transaction, previousHash, nonce = 0)`:
builds the record, computes its hash from `blockDataString`, `duration = 0`. -/
def createBlock (digest : String → String → String) (algorithm : String)
    (index timestamp : Nat) (transaction previousHash : String) (nonce : Nat) :
    Block :=
  { index := index
    timestamp := timestamp
    transaction := transaction
    previousHash := previousHash
    nonce := nonce
    duration := 0
    hash := digest algorithm (blockDataString index timestamp transaction previousHash nonce) }

/-- `"0".repeat(difficulty)`: the target the mined hash must start with. -/
def zeroTarget (difficulty : Nat) : String :=
  String.mk (List.replicate difficulty '0')

/-- JavaScript `s.startsWith(pre)`, modelled on the character sequences. -/
def strStartsWith (s pre : String) : Bool :=
  pre.data.isPrefixOf s.data

/-- `mineBlock(block, algorithm, difficulty)`: if the block's *stored* hash
already starts with the target, return the block unchanged; otherwise
rebuild the candidate via `createBlock` with the same content fields and
`nonce + 1` and recurse.  The source recursion is unbounded, hence fuel. -/
def mineBlock (digest : String → String → String) (algorithm : String)
    (difficulty : Nat) : Nat → Block → Option Block
  | 0, _ => none
  | fuel + 1, block =>
    if strStartsWith block.hash (zeroTarget difficulty) then
      some block
    else
      mineBlock digest algorithm difficulty fuel
        (createBlock digest algorithm block.index block.timestamp block.transaction
          block.previousHash (block.nonce + 1))

/-- The difficulty predicate at a given nonce, over a block's content
fields: does the digest of the block's data string, with the nonce replaced
by `n`, start with the target? -/
def nonceOk (digest : String → String → String) (algorithm : String)
    (difficulty : Nat) (b : Block) (n : Nat) : Bool :=
  strStartsWith
    (digest algorithm (blockDataString b.index b.timestamp b.transaction b.previousHash n))
    (zeroTarget difficulty)

/-- `createGenesisBlock(algorithm, difficulty)`: fixed template
(`index 0`, caller-time timestamp, `"Genesis Block"`, `previousHash "0"`,
`nonce 0`, `hash ""`), mined; the `duration` stamp is a caller-side
wall-clock delta, passed in here as a parameter. -/
def createGenesisBlock (digest : String → String → String) (algorithm : String)
    (difficulty fuel timestamp duration : Nat) : Option Block :=
  let template : Block :=
    { index := 0, timestamp := timestamp, transaction := "Genesis Block"
      previousHash := "0", nonce := 0, hash := "", duration := 0 }
  (mineBlock digest algorithm difficulty fuel template).map
    (fun b => { b with duration := duration })

/-- `addBlock(chain, transaction, algorithm, difficulty)`.  On an empty
chain `chain[chain.length - 1]` is `undefined` and the subsequent field
access throws, so the call fails without producing a chain: modelled as
`none`.  The fresh UTC timestamp and the wall-clock `duration` stamp are
parameters.  On success the result is the input chain with the mined block
(duration restamped) appended by `[...chain, newBlock]`. -/
def addBlock (digest : String → String → String) (fuel : Nat)
    (chain : List Block) (transaction : String) (algorithm : String)
    (difficulty timestamp duration : Nat) : Option (List Block) :=
  match chain.getLast? with
  | none => none
  | some previousBlock =>
    let newIndex := previousBlock.index + 1
    let templateBlock :=
      createBlock digest algorithm newIndex timestamp transaction previousBlock.hash 0
    match mineBlock digest algorithm difficulty fuel templateBlock with
    | none => none
    | some minedBlock => some (chain ++ [{ minedBlock with duration := duration }])

/-- One entry of the validator's report: `{ blockId, ok }`. -/
structure VerdictEntry where
  blockId : Nat
  ok : Bool
  deriving Repr, DecidableEq

/-- The two per-block checks of `validateChain`, combined: hash integrity
(stored hash equals the recomputed digest of `blockDataString`) and linkage
(`previousHash` equals the predecessor's stored hash). -/
def checkBlock (digest : String → String → String) (algorithm : String)
    (previousBlock currentBlock : Block) : Bool :=
  decide (currentBlock.hash =
      digest algorithm
        (blockDataString currentBlock.index currentBlock.timestamp
          currentBlock.transaction currentBlock.previousHash currentBlock.nonce))
    && decide (currentBlock.previousHash = previousBlock.hash)

/-- The loop body of `validateChain` from `i = 1` on: carries the
`isBroken` flag and the predecessor block; once broken, every remaining
entry is pushed `ok = false` without recomputation, mirroring the
`if (isBroken) { push(false); continue; }` branch and the two sequential
checks of the source. -/
def validateFrom (digest : String → String → String) (algorithm : String) :
    Bool → Block → List Block → List VerdictEntry
  | _, _, [] => []
  | broken, previousBlock, currentBlock :: rest =>
    if broken then
      ⟨currentBlock.index, false⟩ :: validateFrom digest algorithm true currentBlock rest
    else if currentBlock.hash ≠
        digest algorithm
          (blockDataString currentBlock.index currentBlock.timestamp
            currentBlock.transaction currentBlock.previousHash currentBlock.nonce) then
      ⟨currentBlock.index, false⟩ :: validateFrom digest algorithm true currentBlock rest
    else if currentBlock.previousHash ≠ previousBlock.hash then
      ⟨currentBlock.index, false⟩ :: validateFrom digest algorithm true currentBlock rest
    else
      ⟨currentBlock.index, true⟩ :: validateFrom digest algorithm false currentBlock rest

/-- `validateChain(algorithm, chain)`: empty chain gives an empty report;
otherwise the genesis entry `{ blockId: chain[0].index, ok: true }` is
pushed unconditionally and the loop runs over the remaining blocks. -/
def validateChain (digest : String → String → String) (algorithm : String) :
    List Block → List VerdictEntry
  | [] => []
  | genesis :: rest =>
    ⟨genesis.index, true⟩ :: validateFrom digest algorithm false genesis rest

/-- The pairwise check results along a chain: entry `i - 1` is
`checkBlock chain[i-1] chain[i]`. -/
def chainChecks (digest : String → String → String) (algorithm : String)
    (chain : List Block) : List Bool :=
  List.zipWith (checkBlock digest algorithm) chain chain.tail

/-- The `hash` function of `src/src/lib/crypto/index.ts`: throws
`"Missing required parameters."` when `!algorithm || !data` (for strings:
when either is empty), otherwise digests.  The output-format branch is
absorbed into the abstract digest. -/
inductive CryptoError where
  | invalidInput
  deriving Repr, DecidableEq

def hash (digest : String → String → String) (algorithm data : String) :
    Except CryptoError String :=
  if algorithm = "" ∨ data = "" then
    Except.error CryptoError.invalidInput
  else
    Except.ok (digest algorithm data)

/-- The spec's own canonical-content formula, for comparison with the
code's `blockDataString`: direct concatenation of the plain decimal
representations of all five fields, `index ++ timestamp ++ transaction ++
previousHash ++ nonce`, with no numeric addition. -/
def specDataString (index timestamp : Nat) (transaction previousHash : String)
    (nonce : Nat) : String :=
  toString index ++ toString timestamp ++ transaction ++ previousHash ++ toString nonce

/-- A concrete digest provider used by witnesses: returns the data
unchanged. -/
def idDigest (_algorithm data : String) : String := data

/-- A concrete digest provider used by mining witnesses: exactly one data
string hits a digest with a leading zero. -/
def toyDigest (_algorithm data : String) : String :=
  if data = blockDataString 1 0 "" "x" 2 then "0hit" else "1miss"

/-! ### Helper lemmas -/

/-- Unfolding of one loop iteration of the validator: the entry is `ok`
exactly when the run is not already broken and both checks pass, and the
broken flag propagates as `broken || !check`. -/
theorem validateFrom_cons (digest : String → String → String) (algorithm : String)
    (broken : Bool) (previousBlock currentBlock : Block) (rest : List Block) :
    validateFrom digest algorithm broken previousBlock (currentBlock :: rest) =
      ⟨currentBlock.index, !broken && checkBlock digest algorithm previousBlock currentBlock⟩ ::
        validateFrom digest algorithm
          (broken || !checkBlock digest algorithm previousBlock currentBlock)
          currentBlock rest := by
  cases broken with
  | true => simp [validateFrom]
  | false =>
    by_cases h1 : currentBlock.hash =
        digest algorithm
          (blockDataString currentBlock.index currentBlock.timestamp
            currentBlock.transaction currentBlock.previousHash currentBlock.nonce)
    · by_cases h2 : currentBlock.previousHash = previousBlock.hash
      · simp [validateFrom, checkBlock, h1, h2]
      · simp [validateFrom, checkBlock, h1, h2]
    · simp [validateFrom, checkBlock, h1]

/-- The validator's report has one entry per block of the walked list. -/
theorem length_validateFrom (digest : String → String → String) (algorithm : String) :
    ∀ (rest : List Block) (broken : Bool) (previousBlock : Block),
    (validateFrom digest algorithm broken previousBlock rest).length = rest.length := by
  intro rest
  induction rest with
  | nil => intro broken previousBlock; rfl
  | cons currentBlock rest ih =>
    intro broken previousBlock
    rw [validateFrom_cons]
    simp [ih]

/-- The report of `validateChain` has one entry per block. -/
theorem length_validateChain (digest : String → String → String) (algorithm : String)
    (chain : List Block) :
    (validateChain digest algorithm chain).length = chain.length := by
  cases chain with
  | nil => rfl
  | cons genesis rest => simp [validateChain, length_validateFrom]

/-! ### Claim theorems -/

/-- Claim C1, counterexample.  The claim says `createBlock`'s hash is the
digest of the separator-free concatenation of the decimal representations
of `index`, `timestamp`, `transaction`, `previousHash`, `nonce`
(`specDataString`).  On the code, `index + timestamp` is numeric addition
before any string conversion, so at `index = 1`, `timestamp = 2`,
`transaction = "t"`, `previousHash = "p"`, `nonce = 0` the code digests
`"3tp0"` while the claim digests `"12tp0"`: with the concrete injected
digest `idDigest` the two hashes differ. -/
theorem createBlock_spec_concat_counterexample :
    (createBlock idDigest "SHA-256" 1 2 "t" "p" 0).hash ≠
      idDigest "SHA-256" (specDataString 1 2 "t" "p" 0) := by
  decide

/-- Claim C1, amended.  A block's hash (as produced by `createBlock` and
as recomputed by `validateChain`) is the digest of
`String(index + timestamp) ++ transaction ++ previousHash ++ String(nonce)`:
`index` and `timestamp` are numerically added before string conversion,
the remaining fields are concatenated without separators. -/
theorem createBlock_hash_eq_digest_sum_concat
    (digest : String → String → String) (algorithm : String)
    (index timestamp : Nat) (transaction previousHash : String) (nonce : Nat)
    (previousBlock currentBlock : Block) (rest : List Block) :
    (createBlock digest algorithm index timestamp transaction previousHash nonce).hash =
      digest algorithm
        (toString (index + timestamp) ++ transaction ++ previousHash ++ toString nonce) ∧
    validateFrom digest algorithm false previousBlock (currentBlock :: rest) =
      ⟨currentBlock.index,
        decide (currentBlock.hash =
            digest algorithm
              (toString (currentBlock.index + currentBlock.timestamp) ++
                currentBlock.transaction ++ currentBlock.previousHash ++
                toString currentBlock.nonce))
          && decide (currentBlock.previousHash = previousBlock.hash)⟩ ::
        validateFrom digest algorithm
          (!(decide (currentBlock.hash =
              digest algorithm
                (toString (currentBlock.index + currentBlock.timestamp) ++
                  currentBlock.transaction ++ currentBlock.previousHash ++
                  toString currentBlock.nonce))
            && decide (currentBlock.previousHash = previousBlock.hash)))
          currentBlock rest := by
  constructor
  · rfl
  · have h := validateFrom_cons digest algorithm false previousBlock currentBlock rest
    simpa [checkBlock, blockDataString] using h

/-- Claim C4: `addBlock` on an empty chain fails (the source reads
`chain[chain.length - 1]`, which is `undefined`, and the field access on it
throws before any block is built), so no chain is returned. -/
theorem addBlock_empty_chain_fails (digest : String → String → String)
    (fuel : Nat) (transaction algorithm : String)
    (difficulty timestamp duration : Nat) :
    addBlock digest fuel [] transaction algorithm difficulty timestamp duration = none :=
  rfl

/-- Claim C6: on a non-empty chain the first report entry is
`{ blockId := genesis.index, ok := true }` whatever the genesis block
holds, and on the empty chain the report is empty rather than an error. -/
theorem validateChain_genesis_entry_and_empty
    (digest : String → String → String) (algorithm : String) :
    validateChain digest algorithm [] = [] ∧
    ∀ (genesis : Block) (rest : List Block),
      (validateChain digest algorithm (genesis :: rest)).head? =
        some ⟨genesis.index, true⟩ :=
  ⟨rfl, fun _ _ => rfl⟩

/-- Claim C7: with `difficulty = 0` the target is the empty string, the
very first `startsWith` test succeeds, and `mineBlock` returns its input
unchanged with no nonce search (one unit of fuel suffices for any
block). -/
theorem mineBlock_difficulty_zero_identity (digest : String → String → String)
    (algorithm : String) (fuel : Nat) (block : Block) :
    mineBlock digest algorithm 0 (fuel + 1) block = some block := by
  have h : strStartsWith block.hash (zeroTarget 0) = true := by
    simp [strStartsWith, zeroTarget]
  rw [mineBlock, if_pos h]

/-- Claim C9: the digest wrapper `hash` fails with `InvalidInput` exactly
when `algorithm` or `data` is the empty string, and otherwise returns the
digest of the data. -/
theorem hash_invalidInput_iff (digest : String → String → String)
    (algorithm data : String) :
    (hash digest algorithm data = Except.error CryptoError.invalidInput ↔
      (algorithm = "" ∨ data = "")) ∧
    (algorithm ≠ "" → data ≠ "" →
      hash digest algorithm data = Except.ok (digest algorithm data)) := by
  constructor
  · constructor
    · intro h
      by_contra hc
      push_neg at hc
      unfold hash at h
      rw [if_neg (by tauto)] at h
      exact Except.noConfusion h
    · intro h
      unfold hash
      rw [if_pos h]
  · intro h1 h2
    unfold hash
    rw [if_neg (by tauto)]

/-- Witness for C9 at concrete inputs: empty algorithm fails, non-empty
algorithm and data digest successfully. -/
theorem hash_invalidInput_iff_witness :
    hash idDigest "" "abc" = Except.error CryptoError.invalidInput ∧
    hash idDigest "SHA-256" "abc" = Except.ok "abc" :=
  ⟨(hash_invalidInput_iff idDigest "" "abc").1.mpr (Or.inl rfl),
   (hash_invalidInput_iff idDigest "SHA-256" "abc").2 (by decide) (by decide)⟩

/-- Claim C10: `mineBlock` tests the *stored* hash, never recomputing the
input's digest; whenever the stored hash already starts with the target the
input block is returned as-is, even if that hash does not match the
block's content. -/
theorem mineBlock_trusts_stored_hash (digest : String → String → String)
    (algorithm : String) (difficulty fuel : Nat) (block : Block)
    (h : strStartsWith block.hash (zeroTarget difficulty) = true) :
    mineBlock digest algorithm difficulty (fuel + 1) block = some block := by
  rw [mineBlock, if_pos h]

/-- A block whose stored hash `"0bogus"` starts with one zero but is not
the digest of its own content under `idDigest`. -/
def bogusBlock : Block :=
  { index := 3, timestamp := 4, transaction := "t", previousHash := "p"
    hash := "0bogus", nonce := 9, duration := 0 }

/-- Witness for C10: `mineBlock` at difficulty 1 returns `bogusBlock`
unchanged although its stored hash differs from the digest of its
content. -/
theorem mineBlock_trusts_stored_hash_witness :
    strStartsWith bogusBlock.hash (zeroTarget 1) = true ∧
    mineBlock idDigest "SHA-256" 1 5 bogusBlock = some bogusBlock ∧
    bogusBlock.hash ≠
      idDigest "SHA-256"
        (blockDataString bogusBlock.index bogusBlock.timestamp
          bogusBlock.transaction bogusBlock.previousHash bogusBlock.nonce) :=
  ⟨by decide, mineBlock_trusts_stored_hash idDigest "SHA-256" 1 4 bogusBlock (by decide),
   by decide⟩

/-- Claim C8: every candidate the miner constructs keeps the input's
`index`, `timestamp`, `transaction` and `previousHash`; only the nonce is
varied (by +1 per attempt), and any candidate other than the input itself
is rebuilt through `createBlock`, i.e. its hash is recomputed from its
content. -/
theorem mineBlock_preserves_content_fields (digest : String → String → String)
    (algorithm : String) (difficulty : Nat) :
    ∀ (fuel : Nat) (block r : Block),
    mineBlock digest algorithm difficulty fuel block = some r →
    r.index = block.index ∧ r.timestamp = block.timestamp ∧
    r.transaction = block.transaction ∧ r.previousHash = block.previousHash ∧
    block.nonce ≤ r.nonce ∧
    (r = block ∨ (block.nonce < r.nonce ∧
      r = createBlock digest algorithm block.index block.timestamp
            block.transaction block.previousHash r.nonce)) := by
  intro fuel
  induction fuel with
  | zero =>
    intro block r hrun
    exact Option.noConfusion hrun
  | succ fuel ih =>
    intro block r hrun
    rw [mineBlock] at hrun
    by_cases hstart : strStartsWith block.hash (zeroTarget difficulty) = true
    · rw [if_pos hstart] at hrun
      obtain rfl : block = r := Option.some.inj hrun
      exact ⟨rfl, rfl, rfl, rfl, Nat.le_refl _, Or.inl rfl⟩
    · rw [if_neg hstart] at hrun
      obtain ⟨h1, h2, h3, h4, h5, h6⟩ := ih _ r hrun
      simp only [createBlock] at h1 h2 h3 h4 h5 h6
      refine ⟨h1, h2, h3, h4, by omega, Or.inr ⟨by omega, ?_⟩⟩
      rcases h6 with h6 | h6
      · rw [h6]; rfl
      · exact h6.2

/-- Witness for C8 at the concrete `toyDigest` search (start nonce 0,
found nonce 2): the mined block keeps the input's `previousHash`. -/
theorem mineBlock_preserves_content_fields_witness :
    (createBlock toyDigest "SHA-256" 1 0 "" "x" 2).previousHash =
      (createBlock toyDigest "SHA-256" 1 0 "" "x" 0).previousHash :=
  (mineBlock_preserves_content_fields toyDigest "SHA-256" 1 5
      (createBlock toyDigest "SHA-256" 1 0 "" "x" 0)
      (createBlock toyDigest "SHA-256" 1 0 "" "x" 2) (by decide)).2.2.2.1

/-- Claim C3: when the input block's stored hash is the digest of its own
content (as for every block coming out of `createBlock`) and the fuelled
search ends, the mined block's hash starts with `difficulty` zero
characters and its nonce is the least nonce `≥` the input nonce whose
digest satisfies the difficulty predicate. -/
theorem mineBlock_leading_zeros_and_minimal_nonce
    (digest : String → String → String) (algorithm : String) (difficulty : Nat) :
    ∀ (fuel : Nat) (block r : Block),
    block.hash = digest algorithm
      (blockDataString block.index block.timestamp block.transaction
        block.previousHash block.nonce) →
    mineBlock digest algorithm difficulty fuel block = some r →
    strStartsWith r.hash (zeroTarget difficulty) = true ∧
    block.nonce ≤ r.nonce ∧
    nonceOk digest algorithm difficulty block r.nonce = true ∧
    ∀ n, block.nonce ≤ n → n < r.nonce →
      nonceOk digest algorithm difficulty block n = false := by
  intro fuel
  induction fuel with
  | zero =>
    intro block r _ hrun
    exact Option.noConfusion hrun
  | succ fuel ih =>
    intro block r hwf hrun
    rw [mineBlock] at hrun
    by_cases hstart : strStartsWith block.hash (zeroTarget difficulty) = true
    · rw [if_pos hstart] at hrun
      obtain rfl : block = r := Option.some.inj hrun
      refine ⟨hstart, Nat.le_refl _, ?_, ?_⟩
      · unfold nonceOk
        rw [← hwf]
        exact hstart
      · intro n h1 h2
        omega
    · rw [if_neg hstart] at hrun
      obtain ⟨hpre, hle, hok, hmin⟩ :=
        ih (createBlock digest algorithm block.index block.timestamp
              block.transaction block.previousHash (block.nonce + 1)) r rfl hrun
      refine ⟨hpre, by exact Nat.le_trans (Nat.le_succ _) hle, hok, ?_⟩
      intro n h1 h2
      rcases Nat.eq_or_lt_of_le h1 with h1 | h1
      · unfold nonceOk
        rw [← h1, ← hwf]
        exact Bool.not_eq_true _ ▸ Bool.of_not_eq_true hstart
      · exact hmin n h1 h2

/-- Witness for C3 at the concrete `toyDigest` search: the mined hash
`"0hit"` starts with one zero and the skipped nonce 1 fails the difficulty
predicate. -/
theorem mineBlock_leading_zeros_and_minimal_nonce_witness :
    strStartsWith (createBlock toyDigest "SHA-256" 1 0 "" "x" 2).hash (zeroTarget 1) = true ∧
    nonceOk toyDigest "SHA-256" 1 (createBlock toyDigest "SHA-256" 1 0 "" "x" 0) 1 = false := by
  have h := mineBlock_leading_zeros_and_minimal_nonce toyDigest "SHA-256" 1 5
    (createBlock toyDigest "SHA-256" 1 0 "" "x" 0)
    (createBlock toyDigest "SHA-256" 1 0 "" "x" 2) rfl (by decide)
  exact ⟨h.1, h.2.2.2 1 (by decide) (by decide)⟩

/-- Claim C5: on a non-empty chain (`lastBlock` is the last element), a
successful `addBlock` returns exactly the input chain with one mined block
appended — the block obtained by mining the `createBlock` template linked
to `lastBlock.hash`, restamped with the caller's duration.  The input
chain is the untouched prefix of the result (`[...chain, newBlock]`
append semantics; the embedding is a pure function, so previously held
references to the old chain trivially still denote it). -/
theorem addBlock_appends_one_mined_block (digest : String → String → String)
    (fuel : Nat) (chain : List Block) (transaction algorithm : String)
    (difficulty timestamp duration : Nat) (lastBlock : Block) (chain' : List Block)
    (hlast : chain.getLast? = some lastBlock)
    (hrun : addBlock digest fuel chain transaction algorithm difficulty timestamp duration =
      some chain') :
    ∃ minedBlock,
      mineBlock digest algorithm difficulty fuel
        (createBlock digest algorithm (lastBlock.index + 1) timestamp transaction
          lastBlock.hash 0) = some minedBlock ∧
      chain' = chain ++ [{ minedBlock with duration := duration }] ∧
      chain'.take chain.length = chain := by
  unfold addBlock at hrun
  rw [hlast] at hrun
  cases hmine : mineBlock digest algorithm difficulty fuel
      (createBlock digest algorithm (lastBlock.index + 1) timestamp transaction
        lastBlock.hash 0) with
  | none =>
    simp [hmine] at hrun
  | some minedBlock =>
    simp only [hmine, Option.some.injEq] at hrun
    subst hrun
    exact ⟨minedBlock, rfl, rfl, List.take_left chain _⟩

/-- A concrete genesis-like block for the C5 witness. -/
def g0 : Block :=
  { index := 0, timestamp := 0, transaction := "g", previousHash := "0"
    hash := "h0", nonce := 0, duration := 0 }

/-- Witness for C5: adding a block to the one-element chain `[g0]` at
difficulty 0 under `idDigest` appends exactly one mined block. -/
theorem addBlock_appends_one_mined_block_witness :
    ∃ minedBlock,
      mineBlock idDigest "A" 0 1
        (createBlock idDigest "A" (g0.index + 1) 7 "tx" g0.hash 0) = some minedBlock ∧
      [g0, { createBlock idDigest "A" 1 7 "tx" "h0" 0 with duration := 9 }] =
        [g0] ++ [{ minedBlock with duration := 9 }] ∧
      ([g0, { createBlock idDigest "A" 1 7 "tx" "h0" 0 with duration := 9 }].take
        ([g0] : List Block).length) = [g0] :=
  addBlock_appends_one_mined_block idDigest 1 [g0] "tx" "A" 0 7 9 g0
    [g0, { createBlock idDigest "A" 1 7 "tx" "h0" 0 with duration := 9 }]
    rfl (by decide)

/-- How the broken flag distributes over the report entry: breaking at the
current block and continuing equals being clean, passing the current check
and carrying the rest. -/
theorem break_flag_step (b c x : Bool) : (!(b || !c) && x) = (!b && (c && x)) := by
  cases b <;> cases c <;> simp

/-- Entry `j` of the validator loop: `ok` holds exactly when the run was
not broken on entry and all checks up to and including position `j`
pass. -/
theorem validateFrom_getElem (digest : String → String → String) (algorithm : String) :
    ∀ (rest : List Block) (broken : Bool) (previousBlock : Block) (j : Nat) (bj : Block),
    rest[j]? = some bj →
    (validateFrom digest algorithm broken previousBlock rest)[j]? =
      some ⟨bj.index,
        !broken &&
          ((List.zipWith (checkBlock digest algorithm) (previousBlock :: rest) rest).take
            (j + 1)).all id⟩ := by
  intro rest
  induction rest with
  | nil =>
    intro broken previousBlock j bj h
    simp at h
  | cons currentBlock rest ih =>
    intro broken previousBlock j bj h
    rw [validateFrom_cons]
    cases j with
    | zero =>
      simp only [List.getElem?_cons_zero, Option.some.injEq] at h
      subst h
      simp
    | succ j =>
      simp only [List.getElem?_cons_succ] at h ⊢
      rw [ih _ _ j bj h]
      simp only [List.zipWith_cons_cons, List.take_succ_cons, List.all_cons, id,
        break_flag_step]

/-- Entry `j` of the full report: `blockId` is the block's index and `ok`
holds exactly when the first `j` pairwise checks pass (for `j = 0`,
vacuously: the genesis entry is always `ok`). -/
theorem validateChain_getElem (digest : String → String → String) (algorithm : String)
    (chain : List Block) (j : Nat) (bj : Block) (hj : chain[j]? = some bj) :
    (validateChain digest algorithm chain)[j]? =
      some ⟨bj.index, ((chainChecks digest algorithm chain).take j).all id⟩ := by
  cases chain with
  | nil => simp at hj
  | cons genesis rest =>
    cases j with
    | zero =>
      simp only [List.getElem?_cons_zero, Option.some.injEq] at hj
      subst hj
      simp [validateChain]
    | succ j =>
      simp only [List.getElem?_cons_succ] at hj
      unfold validateChain
      rw [List.getElem?_cons_succ, validateFrom_getElem digest algorithm rest false genesis j bj hj]
      simp [chainChecks]

/-- Element `i` of the pairwise-check list is the check of blocks `i` and
`i + 1`. -/
theorem chainChecks_getElem (digest : String → String → String) (algorithm : String)
    (chain : List Block) (i : Nat) (bi bi1 : Block)
    (h1 : chain[i]? = some bi) (h2 : chain[i + 1]? = some bi1) :
    (chainChecks digest algorithm chain)[i]? =
      some (checkBlock digest algorithm bi bi1) := by
  unfold chainChecks
  exact List.getElem?_zipWith_eq_some.mpr
    ⟨bi, bi1, h1, by rw [List.getElem?_tail]; exact h2, rfl⟩

/-- The first `i` pairwise checks only depend on the first `i + 1 ≤ k`
blocks of the chain. -/
theorem chainChecks_take (digest : String → String → String) (algorithm : String)
    (chain chain' : List Block) (k i : Nat)
    (h : chain'.take k = chain.take k) (hik : i < k) :
    (chainChecks digest algorithm chain').take i =
      (chainChecks digest algorithm chain).take i := by
  apply List.ext_getElem?
  intro m
  by_cases hmi : m < i
  · rw [List.getElem?_take_of_lt hmi, List.getElem?_take_of_lt hmi]
    unfold chainChecks
    rw [List.getElem?_zipWith', List.getElem?_zipWith']
    have e1 : chain'[m]? = chain[m]? := by
      calc chain'[m]? = (chain'.take k)[m]? := (List.getElem?_take_of_lt (by omega)).symm
        _ = (chain.take k)[m]? := by rw [h]
        _ = chain[m]? := List.getElem?_take_of_lt (by omega)
    have e2 : chain'.tail[m]? = chain.tail[m]? := by
      rw [List.getElem?_tail, List.getElem?_tail]
      calc chain'[m + 1]? = (chain'.take k)[m + 1]? :=
            (List.getElem?_take_of_lt (by omega)).symm
        _ = (chain.take k)[m + 1]? := by rw [h]
        _ = chain[m + 1]? := List.getElem?_take_of_lt (by omega)
    rw [e1, e2]
  · rw [List.getElem?_take_eq_none (by omega), List.getElem?_take_eq_none (by omega)]

/-- Claim C2: if the block at position `k ≥ 1` fails either check (its
stored hash differs from the recomputed digest, or its `previousHash`
differs from its predecessor's hash), then every report entry from
position `k` on is `ok = false`, while the first `k` entries coincide with
the report of any chain sharing the same first `k` blocks — in particular
they are unaffected by block `k`'s failure. -/
theorem validateChain_cascade (digest : String → String → String) (algorithm : String)
    (chain : List Block) (k : Nat) (hk : 1 ≤ k) (hklen : k < chain.length)
    (hfail : checkBlock digest algorithm (chain.get ⟨k - 1, by omega⟩)
      (chain.get ⟨k, hklen⟩) = false) :
    (∀ (j : Nat) (hj : j < (validateChain digest algorithm chain).length),
        k ≤ j → ((validateChain digest algorithm chain).get ⟨j, hj⟩).ok = false) ∧
    (∀ chain' : List Block, chain'.take k = chain.take k →
        (validateChain digest algorithm chain').take k =
          (validateChain digest algorithm chain).take k) := by
  have hgetk1 : chain[k - 1]? = some (chain.get ⟨k - 1, by omega⟩) := by
    rw [List.get_eq_getElem]
    exact List.getElem?_eq_getElem (by omega)
  have hgetk : chain[k]? = some (chain.get ⟨k, hklen⟩) := by
    rw [List.get_eq_getElem]
    exact List.getElem?_eq_getElem hklen
  have hchk : (chainChecks digest algorithm chain)[k - 1]? = some false := by
    rw [chainChecks_getElem digest algorithm chain (k - 1) _ _ hgetk1
      (by rw [Nat.sub_add_cancel hk]; exact hgetk)]
    rw [hfail]
  constructor
  · intro j hj hkj
    have hjc : j < chain.length := by
      rw [length_validateChain] at hj
      exact hj
    have hbj : chain[j]? = some (chain.get ⟨j, hjc⟩) := by
      rw [List.get_eq_getElem]
      exact List.getElem?_eq_getElem hjc
    have hrep := validateChain_getElem digest algorithm chain j _ hbj
    have hrep' : (validateChain digest algorithm chain)[j]? =
        some ((validateChain digest algorithm chain).get ⟨j, hj⟩) := by
      rw [List.get_eq_getElem]
      exact List.getElem?_eq_getElem hj
    rw [hrep'] at hrep
    rw [Option.some.inj hrep]
    show ((chainChecks digest algorithm chain).take j).all id = false
    have hmem : (false : Bool) ∈ (chainChecks digest algorithm chain).take j := by
      apply List.getElem?_mem (n := k - 1)
      rw [List.getElem?_take_of_lt (by omega)]
      exact hchk
    cases hall : ((chainChecks digest algorithm chain).take j).all id with
    | false => rfl
    | true =>
      have hid := List.all_eq_true.mp hall false hmem
      simp at hid
  · intro chain' htake
    have hlenk' : k ≤ chain'.length := by
      have hlen := congrArg List.length htake
      simp only [List.length_take] at hlen
      omega
    apply List.ext_getElem?
    intro i
    by_cases hik : i < k
    · rw [List.getElem?_take_of_lt hik, List.getElem?_take_of_lt hik]
      have hbi : chain[i]? = some (chain.get ⟨i, by omega⟩) := by
        rw [List.get_eq_getElem]
        exact List.getElem?_eq_getElem (by omega)
      have hbi' : chain'[i]? = chain[i]? := by
        calc chain'[i]? = (chain'.take k)[i]? := (List.getElem?_take_of_lt hik).symm
          _ = (chain.take k)[i]? := by rw [htake]
          _ = chain[i]? := List.getElem?_take_of_lt hik
      rw [validateChain_getElem digest algorithm chain i _ hbi,
        validateChain_getElem digest algorithm chain' i _ (by rw [hbi']; exact hbi),
        chainChecks_take digest algorithm chain chain' k i htake hik]
    · rw [List.getElem?_take_eq_none (by omega), List.getElem?_take_eq_none (by omega)]

/-- Genesis block of the concrete chain used by the C2 witness. -/
def gA : Block :=
  { index := 0, timestamp := 0, transaction := "g", previousHash := "0"
    hash := "hg", nonce := 0, duration := 0 }

/-- Block 1 of the C2 witness chain, corrupted: its stored hash `"bad"`
differs from `idDigest "A" "1ahg0"`. -/
def b1bad : Block :=
  { index := 1, timestamp := 0, transaction := "a", previousHash := "hg"
    hash := "bad", nonce := 0, duration := 0 }

/-- Block 2 of the C2 witness chain, internally self-consistent under
`idDigest` and correctly linked to `b1bad`. -/
def b2ok : Block :=
  { index := 2, timestamp := 0, transaction := "b", previousHash := "bad"
    hash := "2bbad0", nonce := 0, duration := 0 }

/-- An uncorrupted replacement for block 1, used to instantiate the
"unaffected by block k's failure" half of the C2 witness. -/
def b1good : Block :=
  { index := 1, timestamp := 0, transaction := "a", previousHash := "hg"
    hash := "1ahg0", nonce := 0, duration := 0 }

/-- The three-block chain with a hash-integrity failure at position 1. -/
def cexChain : List Block := [gA, b1bad, b2ok]

/-- Witness for C2 on `cexChain` with the failure at `k = 1`: position 2
cascades to `ok = false` (although `b2ok` is self-consistent and correctly
linked), and the report prefix before position 1 equals the one computed
for the repaired chain `[gA, b1good]`. -/
theorem validateChain_cascade_witness :
    ((validateChain idDigest "A" cexChain).get ⟨2, by decide⟩).ok = false ∧
    (validateChain idDigest "A" [gA, b1good]).take 1 =
      (validateChain idDigest "A" cexChain).take 1 := by
  have h := validateChain_cascade idDigest "A" cexChain 1 (by decide) (by decide) (by decide)
  exact ⟨h.1 2 (by decide) (by decide), h.2 [gA, b1good] (by decide)⟩

end Agarthan
